import Mathlib

/-!
Shallow embedding of the nft-holder-exporter scripts
(src/get_nft_owners_by_id.mjs and the unnamed near-duplicate
src/unnamed/part_000) and proofs checking the specification's claims
about them.

The two scripts share the whole fetch engine: a batch loop over token-id
windows, one retry.operation per id (retries 10, factor 2, minTimeout
1000, maxTimeout 8000), a CALL_EXCEPTION / invalid-token-ID classifier,
and a per-item promise that is resolved on each of the three terminal
paths.  They differ only in the result sink: get_nft_owners_by_id.mjs
writes each CSV row at the moment the item completes, while part_000
pushes rows into an in-memory array and sorts it by token id before the
single final write.
-/

namespace NftExport

/-- An error thrown by the remote contract call, as the scripts inspect it
(ethers v6 style): an error code, an optional revert reason, and a
message string. -/
structure CallError where
  code : String
  reason : Option String
  message : String
  deriving Repr, DecidableEq

/-- Classification of a failed call, from the catch branch of the per-item
callback: either the recognised permanent invalid-token-ID revert, or a
transient (retryable) error. -/
inductive ErrorClass where
  | PermanentAbsence
  | Transient
  deriving Repr, DecidableEq

/-- Does the character list begin with the given needle?  Helper for the
model of JS String.prototype.includes. -/
def leadsWith : List Char → List Char → Bool
  | _, [] => true
  | [], _ :: _ => false
  | c :: hay, d :: need => c == d && leadsWith hay need

/-- Does the needle occur contiguously somewhere in the haystack?  Model of
JS String.prototype.includes on character lists. -/
def containsSeq : List Char → List Char → Bool
  | hay, need =>
    leadsWith hay need ||
      match hay with
      | [] => false
      | _ :: rest => containsSeq rest need

/-- JS s.includes(sub) for strings. -/
def strIncludes (s sub : String) : Bool :=
  containsSeq s.data sub.data

/-- The revert-reason signature the scripts test for (src line 81 / 85):
error.reason.includes('invalid token ID'). -/
def invalidTokenIdSignature : String := "invalid token ID"

/-- The scripts' test on a caught error (src line 81 / 85):
error.code === 'CALL_EXCEPTION' AND error.reason is truthy AND
error.reason.includes('invalid token ID').  A missing (null) reason is
falsy in JS, so it fails the test. -/
def isInvalidTokenIdError (e : CallError) : Bool :=
  e.code == "CALL_EXCEPTION" &&
    (match e.reason with
     | some r => strIncludes r invalidTokenIdSignature
     | none => false)

/-- The call classifier: the recognised invalid-token-ID revert is a
permanent absence; every other error falls into the else-branches of the
catch and is treated as transient (retried while the budget lasts). -/
def classify (e : CallError) : ErrorClass :=
  if isInvalidTokenIdError e then ErrorClass.PermanentAbsence
  else ErrorClass.Transient

/-- Terminal outcome of one token id: owner found (CSV row), confirmed
absent (console warning only), or retries exhausted (error-log line). -/
inductive Outcome where
  | Owned (owner : String)
  | Absent
  | Failed (reason : String)
  deriving Repr, DecidableEq

/-- The line the script appends to error.log for a Failed id
(src line 90 / 94). -/
def errorLogLine (id : Nat) (msg : String) : String :=
  "Error fetching owner for token ID " ++ toString id ++ ": " ++ msg ++ "\n"

/-- What one item's fetch loop produces: its terminal outcome, the number
of attempts actually made (1-indexed count), the retry delays slept
between attempts in order, and the error-log lines appended. -/
structure ItemResult where
  outcome : Outcome
  attemptsMade : Nat
  waits : List Nat
  logLines : List String
  deriving Repr, DecidableEq

/-- A deterministic transport: the result of the a-th attempt (1-indexed)
of contract.ownerOf(id) — the owner address, or the thrown error.  This
is the narrow remote-call collaborator the engine depends on. -/
abbrev Transport := Nat → Nat → Except CallError String

/-- retry.operation configuration shared by both scripts
(src lines 66-71 / 70-75): retries. -/
def theRetries : Nat := 10

/-- retry.operation configuration: factor. -/
def theFactor : Nat := 2

/-- retry.operation configuration: minTimeout (ms). -/
def theMinTimeout : Nat := 1000

/-- retry.operation configuration: maxTimeout (ms). -/
def theMaxTimeout : Nat := 8000

/-- node-retry createTimeout with randomize off (the default): the delay
scheduled after the (i+1)-th failed attempt, 0-indexed i, is
min(minTimeout * factor^i, maxTimeout). -/
def createTimeout (minT factor maxT i : Nat) : Nat :=
  min (minT * factor ^ i) maxT

/-- node-retry timeouts(): the list of retry delays, one per configured
retry, consumed left to right by operation.retry. -/
def timeouts (retries minT factor maxT : Nat) : List Nat :=
  (List.range retries).map (createTimeout minT factor maxT)

/-- The delay list produced by the scripts' configuration. -/
def theTimeouts : List Nat := timeouts theRetries theMinTimeout theFactor theMaxTimeout

/-- Total attempts the operation can make: the initial attempt plus one
per retry timeout; operation.retry returns false once the timeout list is
empty. -/
def maxAttempts : Nat := 1 + theTimeouts.length

/-- One item's fetch loop (the operation.attempt callback, src lines
73-95 / 77-99), driven by the retry timeouts not yet consumed; a is the
current 1-indexed attempt number.  Success resolves with the owner;
the invalid-token-ID revert resolves as Absent at once; any other error
either consumes the next timeout and retries, or — when the timeouts are
exhausted — appends one error-log line and resolves as Failed with the
last error's message. -/
def fetchItemAux (t : Transport) (id : Nat) : List Nat → Nat → ItemResult
  | [], a =>
    match t id a with
    | Except.ok owner => ⟨Outcome.Owned owner, a, [], []⟩
    | Except.error e =>
      match classify e with
      | ErrorClass.PermanentAbsence => ⟨Outcome.Absent, a, [], []⟩
      | ErrorClass.Transient =>
        ⟨Outcome.Failed e.message, a, [], [errorLogLine id e.message]⟩
  | d :: rest, a =>
    match t id a with
    | Except.ok owner => ⟨Outcome.Owned owner, a, [], []⟩
    | Except.error e =>
      match classify e with
      | ErrorClass.PermanentAbsence => ⟨Outcome.Absent, a, [], []⟩
      | ErrorClass.Transient =>
        let r := fetchItemAux t id rest (a + 1)
        ⟨r.outcome, r.attemptsMade, d :: r.waits, r.logLines⟩

/-- One item's complete fetch: fresh retry.operation, first attempt
numbered 1. -/
def fetchItem (t : Transport) (id : Nat) : ItemResult :=
  fetchItemAux t id theTimeouts 1

/-- Fuel-driven form of the scheduler's outer loop (src lines 59-63 /
63-67): i starts at lo, advances by bs while i ≤ hi, and each window is
[i .. min (i+bs-1) hi], that is, List.range' i (min bs (hi+1-i)).  The
fuel bounds the number of iterations; since i strictly increases by
bs ≥ 1, hi+1-lo iterations always suffice (the JS loop terminates for
the same reason; with bs = 0 it would not, the scripts use bs = 5). -/
def batchesAux (bs : Nat) : Nat → Nat → Nat → List (List Nat)
  | 0, _, _ => []
  | fuel + 1, lo, hi =>
    if lo ≤ hi then
      List.range' lo (min bs (hi + 1 - lo)) :: batchesAux bs fuel (lo + bs) hi
    else []

/-- The batch windows of a run over [lo, hi] with batch size bs. -/
def batches (lo hi bs : Nat) : List (List Nat) :=
  batchesAux bs (hi + 1 - lo) lo hi

/-- The results the run produces, in completion order: for each batch the
scheduler awaits Promise.all of its items, and each item's callback fires
once, in the batch's completion order (a permutation of the batch's ids,
supplied here as one list per batch).  Every item contributes exactly one
(id, result) entry. -/
def runBatches (t : Transport) : List (List Nat) → List (List Nat) → List (Nat × ItemResult)
  | _ :: bl, o :: ol => o.map (fun id => (id, fetchItem t id)) ++ runBatches t bl ol
  | _, _ => []

/-- Observable scheduler events: a fetch starting (the promise is created
and ownerOf is invoked), an item reaching its terminal state (resolve),
and the inter-batch pacing sleep. -/
inductive Ev where
  | start (id : Nat)
  | finish (id : Nat)
  | sleep (ms : Nat)
  deriving Repr, DecidableEq

/-- Is the event a fetch start? -/
def isStart : Ev → Bool
  | Ev.start _ => true
  | _ => false

/-- Is the event an item completion? -/
def isFinish : Ev → Bool
  | Ev.finish _ => true
  | _ => false

/-- Trace of one batch: the inner for-loop creates every promise of the
window synchronously (all starts first), then Promise.all waits for every
item to resolve (the finishes, in completion order), then the script
sleeps the pacing delay (src lines 100-102 / 104-106). -/
def batchTrace (w ord : List Nat) (pacing : Nat) : List Ev :=
  w.map Ev.start ++ ord.map Ev.finish ++ [Ev.sleep pacing]

/-- Trace of the whole run: the batch traces in window order. -/
def runTrace (pacing : Nat) : List (List Nat) → List (List Nat) → List Ev
  | w :: bl, o :: ol => batchTrace w o pacing ++ runTrace pacing bl ol
  | _, _ => []

/-- CSV rows of the immediate-write variant (get_nft_owners_by_id.mjs,
line 77): on the success path the row [owner, id] is written the moment
the item completes, so rows appear in completion order; Absent and Failed
items write nothing to the CSV. -/
def csvRowsImmediate (t : Transport) (bl ol : List (List Nat)) : List (String × Nat) :=
  (runBatches t bl ol).filterMap (fun p =>
    match p.2.outcome with
    | Outcome.Owned o => some (o, p.1)
    | _ => none)

/-- Stable insertion of a row into a list already sorted ascending by
token id: the row goes after every row whose id is not greater.  Helper
for the model of results.sort((a, b) => a[1] - b[1]). -/
def insertByTokenId (r : String × Nat) : List (String × Nat) → List (String × Nat)
  | [] => [r]
  | s :: rest =>
    if r.2 < s.2 then r :: s :: rest
    else s :: insertByTokenId r rest

/-- Stable sort ascending by token id.  ECMAScript Array.prototype.sort
with the comparator (a, b) => a[1] - b[1] is required to produce exactly
a stable ascending reordering, which is what insertion sort computes. -/
def sortByTokenId : List (String × Nat) → List (String × Nat)
  | [] => []
  | r :: rest => insertByTokenId r (sortByTokenId rest)

/-- Are the rows strictly ascending by token id?  The ordering predicate
the spec requires of the persisted table. -/
def rowsAscending : List (String × Nat) → Bool
  | [] => true
  | [_] => true
  | r :: s :: rest => decide (r.2 < s.2) && rowsAscending (s :: rest)

/-- CSV rows of the in-memory variant (part_000, lines 111-115): the same
rows are pushed into the results array in completion order, then
results.sort((a, b) => a[1] - b[1]) sorts them ascending by token id,
and they are written once. -/
def csvRowsSorted (t : Transport) (bl ol : List (List Nat)) : List (String × Nat) :=
  sortByTokenId (csvRowsImmediate t bl ol)

/-- Outcome of one whole script process. -/
inductive ScriptResult where
  | setupFailure (exitCode : Nat)
  | completed (exitCode : Nat) (results : List (Nat × ItemResult))
  deriving Repr

/-- Whole-script model (src lines 21-28 and main, 112-125): if loading or
parsing the ABI throws, the script logs and calls process.exit(1) before
any fetching; otherwise the run executes to completion and the process
exits 0 — main catches and logs any error, and per-item failures were
already resolved inside fetchOwnersInRange, so they never reject the run. -/
def runScript (abiLoad : Except String Unit) (t : Transport)
    (lo hi bs : Nat) (ol : List (List Nat)) : ScriptResult :=
  match abiLoad with
  | Except.error _ => ScriptResult.setupFailure 1
  | Except.ok _ => ScriptResult.completed 0 (runBatches t (batches lo hi bs) ol)

/-- Range start used by both scripts (src line 51 / 52). -/
def startTokenId : Nat := 1001

/-- Range end used by both scripts (src line 52 / 53). -/
def endTokenId : Nat := 2000

/-- Batch size used by both scripts (src line 54). -/
def theBatchSize : Nat := 5

/-- A deterministic transport whose calls all succeed at the first
attempt, each id with its own owner string.  Used for concrete runs. -/
def okTransport : Transport :=
  fun id _ => Except.ok ("owner" ++ toString id)

/-- A deterministic transport whose calls all throw the same transient
error.  Used for concrete runs exercising the retry-exhaustion path. -/
def failTransport : Transport :=
  fun _ _ => Except.error ⟨"SERVER_ERROR", none, "connection reset"⟩

/-! Basic facts about the batch windows. -/

theorem batchesAux_succ (bs fuel lo hi : Nat) :
    batchesAux bs (fuel + 1) lo hi
      = if lo ≤ hi then
          List.range' lo (min bs (hi + 1 - lo)) :: batchesAux bs fuel (lo + bs) hi
        else [] := rfl

theorem batchesAux_of_gt {bs fuel lo hi : Nat} (hgt : hi < lo) :
    batchesAux bs fuel lo hi = [] := by
  cases fuel with
  | zero => rfl
  | succ n => rw [batchesAux_succ, if_neg (by omega)]

theorem batchesAux_fuel {bs : Nat} (hbs : 0 < bs) :
    ∀ f1 f2 lo hi, hi + 1 - lo ≤ f1 → hi + 1 - lo ≤ f2 →
      batchesAux bs f1 lo hi = batchesAux bs f2 lo hi := by
  intro f1
  induction f1 with
  | zero =>
    intro f2 lo hi h1 h2
    rw [batchesAux_of_gt (by omega), batchesAux_of_gt (by omega)]
  | succ n ih =>
    intro f2 lo hi h1 h2
    rcases Nat.lt_or_ge hi lo with hgt | hle
    · rw [batchesAux_of_gt hgt, batchesAux_of_gt hgt]
    · cases f2 with
      | zero => omega
      | succ m =>
        rw [batchesAux_succ, batchesAux_succ, if_pos hle, if_pos hle]
        rw [ih m (lo + bs) hi (by omega) (by omega)]

theorem batches_nil {lo hi bs : Nat} (hgt : hi < lo) : batches lo hi bs = [] :=
  batchesAux_of_gt hgt

theorem batches_cons {lo hi bs : Nat} (hbs : 0 < bs) (hle : lo ≤ hi) :
    batches lo hi bs
      = List.range' lo (min bs (hi + 1 - lo)) :: batches (lo + bs) hi bs := by
  have h1 : batches lo hi bs = batchesAux bs ((hi - lo) + 1) lo hi := by
    unfold batches
    rw [show hi + 1 - lo = (hi - lo) + 1 by omega]
  rw [h1, batchesAux_succ, if_pos hle]
  congr 1
  show batchesAux bs (hi - lo) (lo + bs) hi = batches (lo + bs) hi bs
  unfold batches
  exact batchesAux_fuel hbs (hi - lo) (hi + 1 - (lo + bs)) (lo + bs) hi
    (by omega) (by omega)

theorem batches_eq_nil_iff {lo hi bs : Nat} (hbs : 0 < bs) :
    batches lo hi bs = [] ↔ hi < lo := by
  constructor
  · intro h
    by_contra hc
    push_neg at hc
    rw [batches_cons hbs hc] at h
    simp at h
  · exact batches_nil

theorem batches_flatten_fuel {bs : Nat} (hbs : 0 < bs) :
    ∀ fuel lo hi, hi + 1 - lo ≤ fuel →
      (batches lo hi bs).flatten = List.range' lo (hi + 1 - lo) := by
  intro fuel
  induction fuel with
  | zero =>
    intro lo hi h
    rw [batches_nil (by omega)]
    simp [show hi + 1 - lo = 0 by omega]
  | succ n ih =>
    intro lo hi h
    rcases Nat.lt_or_ge hi lo with hgt | hle
    · rw [batches_nil hgt]
      simp [show hi + 1 - lo = 0 by omega]
    · rw [batches_cons hbs hle, List.flatten_cons, ih (lo + bs) hi (by omega)]
      rcases Nat.le_total bs (hi + 1 - lo) with hb | hb
      · rw [show min bs (hi + 1 - lo) = bs by omega]
        have happ := List.range'_append lo bs (hi + 1 - (lo + bs)) 1
        rw [show lo + 1 * bs = lo + bs by omega] at happ
        rw [happ]
        congr 1
        omega
      · rw [show min bs (hi + 1 - lo) = hi + 1 - lo by omega,
            show hi + 1 - (lo + bs) = 0 by omega]
        simp

/-- The windows, concatenated in order, are exactly the ascending range
[lo .. hi]. -/
theorem batches_flatten {lo hi bs : Nat} (hbs : 0 < bs) :
    (batches lo hi bs).flatten = List.range' lo (hi + 1 - lo) :=
  batches_flatten_fuel hbs _ lo hi (Nat.le_refl _)

theorem batches_window_len_fuel {bs : Nat} (hbs : 0 < bs) :
    ∀ fuel lo hi, hi + 1 - lo ≤ fuel →
      ∀ w ∈ batches lo hi bs, 0 < w.length ∧ w.length ≤ bs := by
  intro fuel
  induction fuel with
  | zero =>
    intro lo hi h w hw
    rw [batches_nil (by omega)] at hw
    simp at hw
  | succ n ih =>
    intro lo hi h w hw
    rcases Nat.lt_or_ge hi lo with hgt | hle
    · rw [batches_nil hgt] at hw
      simp at hw
    · rw [batches_cons hbs hle] at hw
      rcases List.mem_cons.mp hw with rfl | hw'
      · simp only [List.length_range']
        omega
      · exact ih (lo + bs) hi (by omega) w hw'

/-- Every window is nonempty and no longer than the batch size. -/
theorem batches_window_len {lo hi bs : Nat} (hbs : 0 < bs) :
    ∀ w ∈ batches lo hi bs, 0 < w.length ∧ w.length ≤ bs :=
  batches_window_len_fuel hbs _ lo hi (Nat.le_refl _)

theorem batches_mid_len_fuel {bs : Nat} (hbs : 0 < bs) :
    ∀ fuel lo hi, hi + 1 - lo ≤ fuel →
      ∀ k w, k + 1 < (batches lo hi bs).length → (batches lo hi bs)[k]? = some w →
        w.length = bs := by
  intro fuel
  induction fuel with
  | zero =>
    intro lo hi h k w hk hw
    rw [batches_nil (by omega)] at hk
    simp at hk
  | succ n ih =>
    intro lo hi h k w hk hw
    rcases Nat.lt_or_ge hi lo with hgt | hle
    · rw [batches_nil hgt] at hk
      simp at hk
    · rw [batches_cons hbs hle] at hk hw
      cases k with
      | zero =>
        rw [List.getElem?_cons_zero] at hw
        injection hw with hw
        subst hw
        simp only [List.length_cons] at hk
        have htl : batches (lo + bs) hi bs ≠ [] := by
          intro hnil
          rw [hnil] at hk
          simp at hk
        have hlobs : lo + bs ≤ hi := by
          by_contra hc
          exact htl (batches_nil (by omega))
        simp only [List.length_range']
        omega
      | succ k =>
        rw [List.getElem?_cons_succ] at hw
        simp only [List.length_cons] at hk
        exact ih (lo + bs) hi (by omega) k w (by omega) hw

/-- Every window except the last has length exactly bs. -/
theorem batches_mid_len {lo hi bs : Nat} (hbs : 0 < bs) :
    ∀ k w, k + 1 < (batches lo hi bs).length → (batches lo hi bs)[k]? = some w →
      w.length = bs :=
  batches_mid_len_fuel hbs _ lo hi (Nat.le_refl _)

/-! One-step equations for the item fetch loop. -/

theorem fetchItemAux_ok {t : Transport} {id a : Nat} {owner : String}
    (rem : List Nat) (ht : t id a = Except.ok owner) :
    fetchItemAux t id rem a = ⟨Outcome.Owned owner, a, [], []⟩ := by
  cases rem with
  | nil => unfold fetchItemAux; rw [ht]
  | cons d rest => unfold fetchItemAux; rw [ht]

theorem fetchItemAux_absence {t : Transport} {id a : Nat} {e : CallError}
    (rem : List Nat) (ht : t id a = Except.error e)
    (hc : classify e = ErrorClass.PermanentAbsence) :
    fetchItemAux t id rem a = ⟨Outcome.Absent, a, [], []⟩ := by
  cases rem with
  | nil => unfold fetchItemAux; rw [ht]; simp only [hc]
  | cons d rest => unfold fetchItemAux; rw [ht]; simp only [hc]

theorem fetchItemAux_nil_tr {t : Transport} {id a : Nat} {e : CallError}
    (ht : t id a = Except.error e) (hc : classify e = ErrorClass.Transient) :
    fetchItemAux t id [] a
      = ⟨Outcome.Failed e.message, a, [], [errorLogLine id e.message]⟩ := by
  unfold fetchItemAux; rw [ht]; simp only [hc]

theorem fetchItemAux_cons_tr {t : Transport} {id a : Nat} {e : CallError}
    (d : Nat) (rest : List Nat) (ht : t id a = Except.error e)
    (hc : classify e = ErrorClass.Transient) :
    fetchItemAux t id (d :: rest) a
      = ⟨(fetchItemAux t id rest (a + 1)).outcome,
         (fetchItemAux t id rest (a + 1)).attemptsMade,
         d :: (fetchItemAux t id rest (a + 1)).waits,
         (fetchItemAux t id rest (a + 1)).logLines⟩ := by
  conv_lhs => unfold fetchItemAux
  rw [ht]; simp only [hc]

/-- Attempt numbers the loop can end at: between the current attempt and
the current attempt plus the remaining retry budget. -/
theorem fetchItemAux_attempts (t : Transport) (id : Nat) :
    ∀ (rem : List Nat) (a : Nat),
      a ≤ (fetchItemAux t id rem a).attemptsMade
      ∧ (fetchItemAux t id rem a).attemptsMade ≤ a + rem.length := by
  intro rem
  induction rem with
  | nil =>
    intro a
    cases ht : t id a with
    | ok owner => rw [fetchItemAux_ok [] ht]; simp
    | error e =>
      cases hc : classify e with
      | PermanentAbsence => rw [fetchItemAux_absence [] ht hc]; simp
      | Transient => rw [fetchItemAux_nil_tr ht hc]; simp
  | cons d rest ih =>
    intro a
    cases ht : t id a with
    | ok owner => rw [fetchItemAux_ok (d :: rest) ht]; simp
    | error e =>
      cases hc : classify e with
      | PermanentAbsence => rw [fetchItemAux_absence (d :: rest) ht hc]; simp
      | Transient =>
        rw [fetchItemAux_cons_tr d rest ht hc]
        have h := ih (a + 1)
        simp only [List.length_cons]
        constructor <;> omega

/-- The delays the loop sleeps are the consumed front of the timeout
list: one per extra attempt, in order. -/
theorem fetchItemAux_waits (t : Transport) (id : Nat) :
    ∀ (rem : List Nat) (a : Nat),
      (fetchItemAux t id rem a).waits
        = rem.take ((fetchItemAux t id rem a).attemptsMade - a) := by
  intro rem
  induction rem with
  | nil =>
    intro a
    cases ht : t id a with
    | ok owner => rw [fetchItemAux_ok [] ht]; simp
    | error e =>
      cases hc : classify e with
      | PermanentAbsence => rw [fetchItemAux_absence [] ht hc]; simp
      | Transient => rw [fetchItemAux_nil_tr ht hc]; simp
  | cons d rest ih =>
    intro a
    cases ht : t id a with
    | ok owner => rw [fetchItemAux_ok (d :: rest) ht]; simp
    | error e =>
      cases hc : classify e with
      | PermanentAbsence => rw [fetchItemAux_absence (d :: rest) ht hc]; simp
      | Transient =>
        rw [fetchItemAux_cons_tr d rest ht hc]
        have hb := fetchItemAux_attempts t id rest (a + 1)
        simp only []
        rw [show (fetchItemAux t id rest (a + 1)).attemptsMade - a
              = ((fetchItemAux t id rest (a + 1)).attemptsMade - (a + 1)) + 1 by omega,
            List.take_succ_cons, ih (a + 1)]

/-- If every attempt in the remaining budget throws a transient error,
the loop consumes the whole budget and ends Failed with the last error's
message, logging exactly one diagnostic line. -/
theorem fetchItemAux_all_transient (t : Transport) (id : Nat) :
    ∀ (rem : List Nat) (a : Nat),
      (∀ k, a ≤ k → k ≤ a + rem.length →
        ∃ e, t id k = Except.error e ∧ classify e = ErrorClass.Transient) →
      ∃ e, t id (a + rem.length) = Except.error e
        ∧ fetchItemAux t id rem a
            = ⟨Outcome.Failed e.message, a + rem.length, rem,
               [errorLogLine id e.message]⟩ := by
  intro rem
  induction rem with
  | nil =>
    intro a h
    obtain ⟨e, ht, hc⟩ := h a (Nat.le_refl a) (by simp)
    refine ⟨e, by simpa using ht, ?_⟩
    simpa using fetchItemAux_nil_tr ht hc
  | cons d rest ih =>
    intro a h
    obtain ⟨e, ht, hc⟩ := h a (Nat.le_refl a) (by omega)
    obtain ⟨e', ht', hfe⟩ :=
      ih (a + 1) (fun k h1 h2 => h k (by omega) (by simp only [List.length_cons]; omega))
    have hlen : a + (d :: rest).length = a + 1 + rest.length := by
      simp only [List.length_cons]
      omega
    refine ⟨e', by rw [hlen]; exact ht', ?_⟩
    rw [fetchItemAux_cons_tr d rest ht hc, hfe, hlen]

/-! Facts about the run's results list and event trace. -/

theorem runBatches_cons (t : Transport) (w o : List Nat) (bl ol : List (List Nat)) :
    runBatches t (w :: bl) (o :: ol)
      = o.map (fun id => (id, fetchItem t id)) ++ runBatches t bl ol := rfl

/-- The ids of the results, in order, are the concatenation of the
completion orders. -/
theorem runBatches_fst (t : Transport) :
    ∀ {bl ol : List (List Nat)}, List.Forall₂ (fun w o => List.Perm w o) bl ol →
      (runBatches t bl ol).map Prod.fst = ol.flatten := by
  intro bl ol h
  induction h with
  | nil => rfl
  | cons hwo htail ih =>
    rw [runBatches_cons, List.map_append, ih, List.flatten_cons, List.map_map]
    congr 1
    simp [Function.comp_def]

/-- Every id of the range appears exactly once among the results. -/
theorem runBatches_fst_perm (t : Transport) {lo hi bs : Nat} {ol : List (List Nat)}
    (hbs : 0 < bs)
    (hord : List.Forall₂ (fun w o => List.Perm w o) (batches lo hi bs) ol) :
    ((runBatches t (batches lo hi bs) ol).map Prod.fst).Perm
      (List.range' lo (hi + 1 - lo)) := by
  rw [runBatches_fst t hord]
  have h := List.Perm.flatten_congr hord
  rw [batches_flatten hbs] at h
  exact h.symm

/-- Every result entry is the item result of its own id. -/
theorem runBatches_mem (t : Transport) :
    ∀ (bl ol : List (List Nat)) (pr : Nat × ItemResult), pr ∈ runBatches t bl ol →
      pr.2 = fetchItem t pr.1 := by
  intro bl
  induction bl with
  | nil =>
    intro ol pr h
    cases ol with
    | nil => simp [runBatches] at h
    | cons o ol => simp [runBatches] at h
  | cons w bl ih =>
    intro ol pr h
    cases ol with
    | nil => simp [runBatches] at h
    | cons o ol =>
      rw [runBatches_cons] at h
      rcases List.mem_append.mp h with h1 | h2
      · rcases List.mem_map.mp h1 with ⟨id, _, rfl⟩
        rfl
      · exact ih ol pr h2

theorem runTrace_cons (pacing : Nat) (w o : List Nat) (bl ol : List (List Nat)) :
    runTrace pacing (w :: bl) (o :: ol)
      = batchTrace w o pacing ++ runTrace pacing bl ol := rfl

/-- The k-th batch's block — its starts, then its finishes, then the
pacing sleep — appears contiguously in the run's trace. -/
theorem runTrace_decomp (pacing : Nat) :
    ∀ (bl ol : List (List Nat)) (k : Nat) (w o : List Nat),
      bl[k]? = some w → ol[k]? = some o →
      ∃ pre post, runTrace pacing bl ol = pre ++ batchTrace w o pacing ++ post := by
  intro bl
  induction bl with
  | nil =>
    intro ol k w o hw ho
    simp at hw
  | cons hd tl ih =>
    intro ol k w o hw ho
    cases ol with
    | nil => simp at ho
    | cons ohd otl =>
      cases k with
      | zero =>
        rw [List.getElem?_cons_zero] at hw ho
        injection hw with hw
        injection ho with ho
        subst hw
        subst ho
        exact ⟨[], runTrace pacing tl otl, by rw [runTrace_cons]; rfl⟩
      | succ k =>
        rw [List.getElem?_cons_succ] at hw ho
        obtain ⟨pre, post, hp⟩ := ih otl k w o hw ho
        refine ⟨batchTrace hd ohd pacing ++ pre, post, ?_⟩
        rw [runTrace_cons, hp]
        simp [List.append_assoc]

theorem countP_start_map_start (w : List Nat) :
    (w.map Ev.start).countP isStart = w.length := by
  induction w with
  | nil => rfl
  | cons x xs ih => simp [isStart, List.countP_cons, ih]

theorem countP_start_map_finish (o : List Nat) :
    (o.map Ev.finish).countP isStart = 0 := by
  induction o with
  | nil => rfl
  | cons x xs ih => simp [isStart, List.countP_cons, ih]

theorem countP_finish_map_start (w : List Nat) :
    (w.map Ev.start).countP isFinish = 0 := by
  induction w with
  | nil => rfl
  | cons x xs ih => simp [isFinish, List.countP_cons, ih]

theorem countP_finish_map_finish (o : List Nat) :
    (o.map Ev.finish).countP isFinish = o.length := by
  induction o with
  | nil => rfl
  | cons x xs ih => simp [isFinish, List.countP_cons, ih]

theorem countP_batchTrace_start (w o : List Nat) (pacing : Nat) :
    (batchTrace w o pacing).countP isStart = w.length := by
  rw [batchTrace, List.countP_append, List.countP_append,
    countP_start_map_start, countP_start_map_finish]
  simp [isStart, List.countP_cons, List.countP_nil]

theorem countP_batchTrace_finish (w o : List Nat) (pacing : Nat) :
    (batchTrace w o pacing).countP isFinish = o.length := by
  rw [batchTrace, List.countP_append, List.countP_append,
    countP_finish_map_start, countP_finish_map_finish]
  simp [isFinish, List.countP_cons, List.countP_nil]

/-- In every prefix of the run's trace, the number of fetches started
exceeds the number of items finished by at most the largest window
length: at most that many items are in flight at once. -/
theorem runTrace_inflight (pacing bs : Nat) :
    ∀ {bl ol : List (List Nat)}, List.Forall₂ (fun w o => List.Perm w o) bl ol →
      (∀ w ∈ bl, w.length ≤ bs) →
      ∀ n, ((runTrace pacing bl ol).take n).countP isStart
          ≤ ((runTrace pacing bl ol).take n).countP isFinish + bs := by
  intro bl ol h
  induction h with
  | nil =>
    intro hlen n
    simp [runTrace]
  | @cons w o bl' ol' hwo htail ih =>
    intro hlen n
    rw [runTrace_cons, List.take_append_eq_append_take, List.countP_append,
      List.countP_append]
    rcases Nat.le_total n (batchTrace w o pacing).length with hn | hn
    · rw [show n - (batchTrace w o pacing).length = 0 by omega]
      simp only [List.take_zero, List.countP_nil]
      have hs : (List.take n (batchTrace w o pacing)).countP isStart ≤ w.length := by
        have hsub := (List.take_sublist n (batchTrace w o pacing)).countP_le isStart
        rw [countP_batchTrace_start] at hsub
        exact hsub
      have hwbs : w.length ≤ bs := hlen w (List.mem_cons_self _ _)
      omega
    · rw [List.take_of_length_le hn, countP_batchTrace_start, countP_batchTrace_finish]
      have holen : o.length = w.length := hwo.length_eq.symm
      have hrest := ih (fun w' hw' => hlen w' (List.mem_cons_of_mem _ hw'))
        (n - (batchTrace w o pacing).length)
      omega

/-- Pointwise access to a Forall₂ relation. -/
theorem forall₂_getElem {α β : Type} {R : α → β → Prop} :
    ∀ {l1 : List α} {l2 : List β}, List.Forall₂ R l1 l2 →
      ∀ (k : Nat) (a : α) (b : β), l1[k]? = some a → l2[k]? = some b → R a b := by
  intro l1 l2 h
  induction h with
  | nil =>
    intro k a b ha hb
    simp at ha
  | cons hab htail ih =>
    intro k a b ha hb
    cases k with
    | zero =>
      rw [List.getElem?_cons_zero] at ha hb
      injection ha with ha
      injection hb with hb
      subst ha
      subst hb
      exact hab
    | succ k =>
      rw [List.getElem?_cons_succ] at ha hb
      exact ih k a b ha hb

/-- The bool test behind the classifier, in propositional form. -/
theorem isInvalidTokenIdError_iff (e : CallError) :
    isInvalidTokenIdError e = true ↔
      (e.code = "CALL_EXCEPTION"
        ∧ ∃ r, e.reason = some r ∧ strIncludes r invalidTokenIdSignature = true) := by
  unfold isInvalidTokenIdError
  rcases e with ⟨c, reason, m⟩
  cases reason with
  | none => simp
  | some r => simp [Bool.and_eq_true, beq_iff_eq]

/-! The claims. -/

/-- C1: for every run over [start, end] with start ≤ end, any positive
batch size and any per-batch completion orders, the final result set
pairs exactly the integers of the range with terminal outcomes: the ids
of the results are a permutation of the ascending range — no id missing,
none repeated. -/
theorem run_covers_range_exactly_once (t : Transport) (lo hi bs : Nat)
    (ol : List (List Nat)) (hbs : 0 < bs) (hlo : lo ≤ hi)
    (hord : List.Forall₂ (fun w o => List.Perm w o) (batches lo hi bs) ol) :
    ((runBatches t (batches lo hi bs) ol).map Prod.fst).Perm
        (List.range' lo (hi + 1 - lo))
    ∧ ((runBatches t (batches lo hi bs) ol).map Prod.fst).Nodup := by
  have hperm := runBatches_fst_perm t hbs hord
  exact ⟨hperm, hperm.nodup_iff.mpr (List.nodup_range' lo (hi + 1 - lo))⟩

/-- Witness for C1 on the run over [1, 3], batch size 2, with ids 2 and 1
swapping completion order. -/
theorem run_covers_range_exactly_once_witness :
    (0 < 2 ∧ 1 ≤ 3
      ∧ List.Forall₂ (fun w o => List.Perm w o) (batches 1 3 2) [[2, 1], [3]])
    ∧ ((runBatches okTransport (batches 1 3 2) [[2, 1], [3]]).map Prod.fst).Perm
        (List.range' 1 (3 + 1 - 1))
    ∧ ((runBatches okTransport (batches 1 3 2) [[2, 1], [3]]).map Prod.fst).Nodup :=
  ⟨⟨by decide, by decide, by decide⟩,
    run_covers_range_exactly_once okTransport 1 3 2 [[2, 1], [3]]
      (by decide) (by decide) (by decide)⟩

/-- C3: the scheduler partitions [start, end] into consecutive ascending
windows of length batchSize (the final one may be shorter and all are
nonempty), and the run's trace consists, window after window in order,
of the window's fetch starts, then the completions of all and only its
ids, then the pacing sleep — so no later window starts before every item
of the current window reached a terminal state and the pacing delay was
slept. -/
theorem scheduler_batches_windows (lo hi bs pacing : Nat) (ol : List (List Nat))
    (hbs : 0 < bs)
    (hord : List.Forall₂ (fun w o => List.Perm w o) (batches lo hi bs) ol) :
    (batches lo hi bs).flatten = List.range' lo (hi + 1 - lo)
    ∧ (∀ w ∈ batches lo hi bs, 0 < w.length ∧ w.length ≤ bs)
    ∧ (∀ k w, k + 1 < (batches lo hi bs).length → (batches lo hi bs)[k]? = some w →
        w.length = bs)
    ∧ (∀ (k : Nat) (w o : List Nat), (batches lo hi bs)[k]? = some w → ol[k]? = some o →
        List.Perm w o
        ∧ ∃ pre post, runTrace pacing (batches lo hi bs) ol
            = pre ++ (w.map Ev.start ++ o.map Ev.finish ++ [Ev.sleep pacing]) ++ post) := by
  refine ⟨batches_flatten hbs, batches_window_len hbs, batches_mid_len hbs, ?_⟩
  intro k w o hw ho
  exact ⟨forall₂_getElem hord k w o hw ho, runTrace_decomp pacing _ ol k w o hw ho⟩

/-- Witness for C3 on the run over [1, 5], batch size 2. -/
theorem scheduler_batches_windows_witness :
    (0 < 2
      ∧ List.Forall₂ (fun w o => List.Perm w o) (batches 1 5 2) [[2, 1], [4, 3], [5]])
    ∧ (batches 1 5 2).flatten = List.range' 1 (5 + 1 - 1) :=
  ⟨⟨by decide, by decide⟩,
    (scheduler_batches_windows 1 5 2 1500 [[2, 1], [4, 3], [5]]
      (by decide) (by decide)).1⟩

/-- C9: in every prefix of the run's trace, the number of fetches started
never exceeds the number of items already terminal by more than the
batch size: at most batchSize remote calls are in flight at any point. -/
theorem inflight_bounded (lo hi bs pacing : Nat) (ol : List (List Nat))
    (hbs : 0 < bs)
    (hord : List.Forall₂ (fun w o => List.Perm w o) (batches lo hi bs) ol) :
    ∀ n, ((runTrace pacing (batches lo hi bs) ol).take n).countP isStart
        ≤ ((runTrace pacing (batches lo hi bs) ol).take n).countP isFinish + bs :=
  runTrace_inflight pacing bs hord (fun w hw => (batches_window_len hbs w hw).2)

/-- Witness for C9 at the prefix of length 3 of a concrete run. -/
theorem inflight_bounded_witness :
    (0 < 2
      ∧ List.Forall₂ (fun w o => List.Perm w o) (batches 1 5 2) [[2, 1], [4, 3], [5]])
    ∧ ((runTrace 1500 (batches 1 5 2) [[2, 1], [4, 3], [5]]).take 3).countP isStart
        ≤ ((runTrace 1500 (batches 1 5 2) [[2, 1], [4, 3], [5]]).take 3).countP isFinish
          + 2 :=
  ⟨⟨by decide, by decide⟩,
    inflight_bounded 1 5 2 1500 [[2, 1], [4, 3], [5]] (by decide) (by decide) 3⟩

/-- C10: with a transport that settles every call, the run terminates
with exactly one resolved entry per id of the range, and every entry is
its id's item result, resolved on one of the three terminal paths after
at least one and at most maxAttempts attempts. -/
theorem run_resolves_and_terminates (t : Transport) (lo hi bs : Nat)
    (ol : List (List Nat)) (hbs : 0 < bs)
    (hord : List.Forall₂ (fun w o => List.Perm w o) (batches lo hi bs) ol) :
    (runBatches t (batches lo hi bs) ol).length = hi + 1 - lo
    ∧ ∀ pr ∈ runBatches t (batches lo hi bs) ol,
        pr.2 = fetchItem t pr.1
        ∧ 1 ≤ pr.2.attemptsMade ∧ pr.2.attemptsMade ≤ maxAttempts
        ∧ ((∃ o, pr.2.outcome = Outcome.Owned o) ∨ pr.2.outcome = Outcome.Absent
            ∨ ∃ m, pr.2.outcome = Outcome.Failed m) := by
  constructor
  · have hperm := runBatches_fst_perm t hbs hord
    have hlen := hperm.length_eq
    rw [List.length_map, List.length_range'] at hlen
    exact hlen
  · intro pr hpr
    have hfi := runBatches_mem t _ ol pr hpr
    have hb := fetchItemAux_attempts t pr.1 theTimeouts 1
    refine ⟨hfi, by rw [hfi]; exact hb.1, ?_, ?_⟩
    · rw [hfi]
      unfold fetchItem maxAttempts
      have h2 := hb.2
      omega
    · cases houtcome : pr.2.outcome with
      | Owned o => exact Or.inl ⟨o, rfl⟩
      | Absent => exact Or.inr (Or.inl rfl)
      | Failed m => exact Or.inr (Or.inr ⟨m, rfl⟩)

/-- Witness for C10: the run over [1, 3] under the always-failing
transport still terminates, with one entry per id. -/
theorem run_resolves_and_terminates_witness :
    (0 < 2
      ∧ List.Forall₂ (fun w o => List.Perm w o) (batches 1 3 2) [[2, 1], [3]])
    ∧ (runBatches failTransport (batches 1 3 2) [[2, 1], [3]]).length = 3 + 1 - 1 :=
  ⟨⟨by decide, by decide⟩,
    (run_resolves_and_terminates failTransport 1 3 2 [[2, 1], [3]]
      (by decide) (by decide)).1⟩

/-- C7: an ABI load failure exits the process with code 1 before any
fetching; with the ABI loaded the run always completes — whatever the
per-item outcomes, so no item's failure cancels its siblings or later
batches — every id of the range is covered, and the process exits 0. -/
theorem setup_exit_and_isolation (msg : String) (t : Transport) (lo hi bs : Nat)
    (ol : List (List Nat)) (hbs : 0 < bs)
    (hord : List.Forall₂ (fun w o => List.Perm w o) (batches lo hi bs) ol) :
    runScript (Except.error msg) t lo hi bs ol = ScriptResult.setupFailure 1
    ∧ ∃ rs, runScript (Except.ok ()) t lo hi bs ol = ScriptResult.completed 0 rs
        ∧ (rs.map Prod.fst).Perm (List.range' lo (hi + 1 - lo)) :=
  ⟨rfl, runBatches t (batches lo hi bs) ol, rfl, runBatches_fst_perm t hbs hord⟩

/-- Witness for C7: under the always-failing transport every id ends
Failed, yet the run completes with exit code 0 and full coverage; the
ABI failure path exits 1. -/
theorem setup_exit_and_isolation_witness :
    (0 < 2
      ∧ List.Forall₂ (fun w o => List.Perm w o) (batches 1 3 2) [[2, 1], [3]])
    ∧ runScript (Except.error "bad ABI") failTransport 1 3 2 [[2, 1], [3]]
        = ScriptResult.setupFailure 1
    ∧ ∃ rs, runScript (Except.ok ()) failTransport 1 3 2 [[2, 1], [3]]
        = ScriptResult.completed 0 rs
        ∧ (rs.map Prod.fst).Perm (List.range' 1 (3 + 1 - 1)) :=
  ⟨⟨by decide, by decide⟩,
    setup_exit_and_isolation "bad ABI" failTransport 1 3 2 [[2, 1], [3]]
      (by decide) (by decide)⟩

/-- C4: the k-th retry delay — the one slept after attempt k fails and
before attempt k+1 — equals min(baseDelay * growthFactor^(k-1),
maxDelay); for the configured baseDelay 1000, growthFactor 2 and
maxDelay 8000 the first five delays are 1000, 2000, 4000, 8000, 8000;
the budget is exhausted exactly beyond maxAttempts = retries + 1
attempts: no item ever makes more, every item makes at least one, the
delays it sleeps are the consumed front of the delay list, and an
all-transient item reaches maxAttempts exactly. -/
theorem retry_policy_delays :
    (∀ k : Nat, 1 ≤ k → k ≤ theRetries →
      theTimeouts[k - 1]?
        = some (min (theMinTimeout * theFactor ^ (k - 1)) theMaxTimeout))
    ∧ theTimeouts.take 5 = [1000, 2000, 4000, 8000, 8000]
    ∧ maxAttempts = theRetries + 1
    ∧ (∀ (t : Transport) (id : Nat),
        1 ≤ (fetchItem t id).attemptsMade
        ∧ (fetchItem t id).attemptsMade ≤ maxAttempts
        ∧ (fetchItem t id).waits
            = theTimeouts.take ((fetchItem t id).attemptsMade - 1))
    ∧ (∀ id : Nat, (fetchItem failTransport id).attemptsMade = maxAttempts) := by
  refine ⟨?_, by decide, by decide, ?_, ?_⟩
  · intro k h1 h2
    unfold theTimeouts timeouts
    rw [List.getElem?_map, List.getElem?_range (by unfold theRetries at h2 ⊢; omega)]
    rfl
  · intro t id
    have hb := fetchItemAux_attempts t id theTimeouts 1
    have hw := fetchItemAux_waits t id theTimeouts 1
    unfold fetchItem
    exact ⟨hb.1, by unfold maxAttempts; omega, hw⟩
  · intro id
    obtain ⟨e, ht, hfe⟩ := fetchItemAux_all_transient failTransport id theTimeouts 1
      (fun k h1 h2 => ⟨⟨"SERVER_ERROR", none, "connection reset"⟩, rfl, by decide⟩)
    unfold fetchItem
    rw [hfe]
    rfl

/-- Witness for C4: the third delay and the exhaustion count, concretely. -/
theorem retry_policy_delays_witness :
    theTimeouts[2]? = some (min (theMinTimeout * theFactor ^ 2) theMaxTimeout)
    ∧ (fetchItem failTransport 42).attemptsMade = maxAttempts :=
  ⟨retry_policy_delays.1 3 (by decide) (by decide),
    retry_policy_delays.2.2.2.2 42⟩

/-- C5: the classifier returns PermanentAbsence exactly when the failed
call is a CALL_EXCEPTION whose revert reason contains the invalid-token-
ID signature; every other error is Transient; and a PermanentAbsence
error makes the item terminate as Absent at its current attempt — no
further attempts, no retry delays consumed, no log line. -/
theorem classifier_exactness :
    (∀ e : CallError, classify e = ErrorClass.PermanentAbsence ↔
      (e.code = "CALL_EXCEPTION"
        ∧ ∃ r, e.reason = some r ∧ strIncludes r invalidTokenIdSignature = true))
    ∧ (∀ e : CallError,
        classify e = ErrorClass.PermanentAbsence ∨ classify e = ErrorClass.Transient)
    ∧ (∀ (t : Transport) (id : Nat) (rem : List Nat) (a : Nat) (e : CallError),
        t id a = Except.error e → classify e = ErrorClass.PermanentAbsence →
        fetchItemAux t id rem a = ⟨Outcome.Absent, a, [], []⟩) := by
  refine ⟨?_, ?_, fun t id rem a e ht hc => fetchItemAux_absence rem ht hc⟩
  · intro e
    rw [← isInvalidTokenIdError_iff e]
    unfold classify
    cases h : isInvalidTokenIdError e <;> simp [h]
  · intro e
    unfold classify
    cases isInvalidTokenIdError e <;> simp

/-- Witness for C5: a concrete ERC721 invalid-token-ID revert classifies
as PermanentAbsence and resolves the item as Absent on attempt 1 with
the full retry budget untouched. -/
theorem classifier_exactness_witness :
    classify ⟨"CALL_EXCEPTION", some "execution reverted: ERC721: invalid token ID",
        "call revert exception"⟩ = ErrorClass.PermanentAbsence
    ∧ fetchItemAux
        (fun _ _ =>
          Except.error ⟨"CALL_EXCEPTION", some "ERC721: invalid token ID", "revert"⟩)
        9 theTimeouts 1 = ⟨Outcome.Absent, 1, [], []⟩ :=
  ⟨(classifier_exactness.1 _).mpr
      ⟨rfl, "execution reverted: ERC721: invalid token ID", rfl, by decide⟩,
    classifier_exactness.2.2 _ 9 theTimeouts 1 _ rfl (by decide)⟩

/-- C6: an item whose every attempt throws a transient error ends Failed
after exactly maxAttempts attempts — none after the terminal state, all
retry delays consumed — and appends exactly one diagnostic line,
'Error fetching owner for token ID <id>: <message>' with the last
error's message. -/
theorem exhaustion_failed_logged (t : Transport) (id : Nat)
    (h : ∀ k : Nat, 1 ≤ k → k ≤ maxAttempts →
      ∃ e, t id k = Except.error e ∧ classify e = ErrorClass.Transient) :
    ∃ e, t id maxAttempts = Except.error e
      ∧ fetchItem t id
          = ⟨Outcome.Failed e.message, maxAttempts, theTimeouts,
             [errorLogLine id e.message]⟩ := by
  obtain ⟨e, ht, hfe⟩ := fetchItemAux_all_transient t id theTimeouts 1
    (fun k h1 h2 => h k h1 (by unfold maxAttempts; omega))
  exact ⟨e, ht, hfe⟩

/-- Witness for C6: under the always-failing transport, id 5 ends Failed
after 11 attempts with its single log line. -/
theorem exhaustion_failed_logged_witness :
    ∃ e, failTransport 5 maxAttempts = Except.error e
      ∧ fetchItem failTransport 5
          = ⟨Outcome.Failed e.message, maxAttempts, theTimeouts,
             [errorLogLine 5 e.message]⟩ :=
  exhaustion_failed_logged failTransport 5
    (fun k h1 h2 => ⟨⟨"SERVER_ERROR", none, "connection reset"⟩, rfl, by decide⟩)

/-- C2 (failing evaluation): in the run over [1, 2] with batch size 2
where id 2 completes before id 1 and every owner is found, the
immediate-write table of get_nft_owners_by_id.mjs holds its rows in
completion order — (owner2, 2) before (owner1, 1), not ascending by
token id — while the accumulate-then-sort sink of part_000 produces the
ascending order from the very same run. -/
theorem immediate_write_rows_unsorted :
    List.Forall₂ (fun w o => List.Perm w o) (batches 1 2 2) [[2, 1]]
    ∧ csvRowsImmediate okTransport (batches 1 2 2) [[2, 1]]
        = [("owner2", 2), ("owner1", 1)]
    ∧ rowsAscending (csvRowsImmediate okTransport (batches 1 2 2) [[2, 1]]) = false
    ∧ csvRowsSorted okTransport (batches 1 2 2) [[2, 1]]
        = [("owner1", 1), ("owner2", 2)]
    ∧ rowsAscending (csvRowsSorted okTransport (batches 1 2 2) [[2, 1]]) = true :=
  ⟨by decide, by decide, by decide, by decide, by decide⟩

/-- C8 (failing evaluation): the same transport and range [1, 2] run with
batch size 1 — whose singleton batches force ascending completion — and
with batch size 2 where id 2 completes first: the immediate-write tables
of get_nft_owners_by_id.mjs differ in row order between the two runs,
while the accumulate-then-sort sink of part_000 produces identical
tables for both. -/
theorem immediate_write_not_batch_invariant :
    List.Forall₂ (fun w o => List.Perm w o) (batches 1 2 1) [[1], [2]]
    ∧ List.Forall₂ (fun w o => List.Perm w o) (batches 1 2 2) [[2, 1]]
    ∧ csvRowsImmediate okTransport (batches 1 2 1) [[1], [2]]
        = [("owner1", 1), ("owner2", 2)]
    ∧ csvRowsImmediate okTransport (batches 1 2 2) [[2, 1]]
        = [("owner2", 2), ("owner1", 1)]
    ∧ csvRowsImmediate okTransport (batches 1 2 1) [[1], [2]]
        ≠ csvRowsImmediate okTransport (batches 1 2 2) [[2, 1]]
    ∧ csvRowsSorted okTransport (batches 1 2 1) [[1], [2]]
        = csvRowsSorted okTransport (batches 1 2 2) [[2, 1]] :=
  ⟨by decide, by decide, by decide, by decide, by decide, by decide⟩

end NftExport
